import Mathlib

/-!
Shallow embedding of the connection-tracking subsystem of `netfcts`
(`src/lib.rs`, `src/recstore.rs`, `src/utils.rs`).

Machine integers are embedded as `Nat`; truncating casts are explicit
(`% 2^32` and wrapping `u16` subtraction).  Fallible code paths (Rust
panics from out-of-bounds indexing, `unwrap`, `expect`, `assert!`) are
embedded as `Option`, with `none` denoting the panic.  The hardware
cycle counter read (`rdtsc_unsafe`) is passed in as an explicit `now`
argument.
-/

/-- Modelled from the spec: the TCP protocol state enumeration of the
missing module `tcp_common` ("protocol states are an externally defined
finite enumeration, e.g. Closed, Listen, SynSent, SynReceived,
Established, FinWait, Closing, LastAck, TimeWait"), stored as a small
integer. -/
inductive TcpState where
  | Closed
  | Listen
  | SynSent
  | SynReceived
  | Established
  | FinWait
  | Closing
  | LastAck
  | TimeWait
deriving DecidableEq, Repr

/-- Modelled from the spec: the integer encoding of `TcpState` used when
the state is stored in a `u8` field. -/
def tcpStateToU8 : TcpState → Nat
  | .Closed => 0
  | .Listen => 1
  | .SynSent => 2
  | .SynReceived => 3
  | .Established => 4
  | .FinWait => 5
  | .Closing => 6
  | .LastAck => 7
  | .TimeWait => 8

/-- Modelled from the spec: the inverse conversion `TcpState::from(u8)`
of the missing module `tcp_common`. -/
def tcpStateFromU8 : Nat → TcpState
  | 0 => .Closed
  | 1 => .Listen
  | 2 => .SynSent
  | 3 => .SynReceived
  | 4 => .Established
  | 5 => .FinWait
  | 6 => .Closing
  | 7 => .LastAck
  | 8 => .TimeWait
  | _ => .Closed

/-- Modelled from the spec: the role enumeration {Client, Server} of the
missing module `tcp_common`. -/
inductive TcpRole where
  | Client
  | Server
deriving DecidableEq, Repr

/-- Modelled from the spec: integer encoding of `TcpRole`. -/
def tcpRoleToU8 : TcpRole → Nat
  | .Client => 0
  | .Server => 1

/-- Modelled from the spec: the conversion `TcpRole::from(u8)` of the
missing module `tcp_common`. -/
def tcpRoleFromU8 : Nat → TcpRole
  | 0 => .Client
  | _ => .Server

/-- Modelled from the spec: `tcp_start_state(role)` of the missing
module `tcp_common` — "the role's TCP starting state": a client starts
Closed, a server starts in Listen. -/
def tcp_start_state : TcpRole → TcpState
  | .Client => .Closed
  | .Server => .Listen

/-- Modelled from the spec: the release-cause enumeration of the missing
module `tcp_common` ("externally defined enumeration set exactly once
when the connection is torn down"); only `Unknown` (the default used by
`ConRecord::new`) is named by the code under src/. -/
inductive ReleaseCause where
  | Unknown
  | Timeout
  | ActiveClose
  | PassiveClose
  | ActiveRst
  | PassiveRst
deriving DecidableEq, Repr

/-- Modelled from the spec: integer encoding of `ReleaseCause`. -/
def releaseCauseToU8 : ReleaseCause → Nat
  | .Unknown => 0
  | .Timeout => 1
  | .ActiveClose => 2
  | .PassiveClose => 3
  | .ActiveRst => 4
  | .PassiveRst => 5

/-- Modelled from the spec: the conversion `ReleaseCause::from(u8)`. -/
def releaseCauseFromU8 : Nat → ReleaseCause
  | 0 => .Unknown
  | 1 => .Timeout
  | 2 => .ActiveClose
  | 3 => .PassiveClose
  | 4 => .ActiveRst
  | _ => .PassiveRst

/-- `pub const TIME_STAMP_REDUCTION_FACTOR: u64 = 1000;` (src/lib.rs). -/
def TIME_STAMP_REDUCTION_FACTOR : Nat := 1000

/-- Modulus of a `u32`. -/
def U32MOD : Nat := 2 ^ 32

/-- `struct ConRecord` (src/lib.rs lines 55-70).  The fixed-size arrays
`stamps: [u32; 6]` and `state: [u8; 7]` are embedded as `List Nat` whose
length-7/length-6 invariant holds for every record the program builds. -/
structure ConRecord where
  base_stamp : Nat
  uid : Nat
  stamps : List Nat
  sent_payload_packets : Nat
  recv_payload_packets : Nat
  client_ip : Nat
  client_port : Nat
  port : Nat
  state : List Nat
  state_count : Nat
  server_index : Nat
  release_cause : Nat
  role : Nat
  server_state : Nat
deriving DecidableEq, Repr

/-- `fn role(&self) -> TcpRole` (src/lib.rs). -/
def ConRecord.roleEnum (r : ConRecord) : TcpRole := tcpRoleFromU8 r.role

/-- `fn sock(&self) -> (u32, u16)` of `HasConData` (src/lib.rs). -/
def ConRecord.sockAcc (r : ConRecord) : Nat × Nat := (r.client_ip, r.client_port)

/-- `fn server_state(&self) -> TcpState` of `HasConData` (src/lib.rs). -/
def ConRecord.serverStateAcc (r : ConRecord) : TcpState := tcpStateFromU8 r.server_state

/-- `fn release_cause(&self) -> ReleaseCause` of `HasTcpState` (src/lib.rs). -/
def ConRecord.releaseCauseAcc (r : ConRecord) : ReleaseCause := releaseCauseFromU8 r.release_cause

/-- `ConRecord::new()` of the `Storable` impl (src/lib.rs lines 300-320). -/
def ConRecord.new : ConRecord :=
  { role := tcpRoleToU8 .Client
    server_index := 0
    release_cause := releaseCauseToU8 .Unknown
    state_count := 0
    base_stamp := 0
    state := List.replicate 7 (tcpStateToU8 .Closed)
    stamps := List.replicate 6 0
    port := 0
    client_ip := 0
    client_port := 0
    sent_payload_packets := 0
    recv_payload_packets := 0
    uid := 0
    server_state := tcpStateToU8 .Listen }

/-- `ConRecord::init(role, port, sock)` (src/lib.rs lines 103-118); the
`rdtsc_unsafe()` read that stamps `uid` is the explicit `now` argument. -/
def ConRecord.init (r : ConRecord) (role : TcpRole) (port : Nat)
    (sock : Option (Nat × Nat)) (now : Nat) : ConRecord :=
  let s := sock.getD (0, 0)
  { r with
    state_count := 0
    base_stamp := 0
    sent_payload_packets := 0
    recv_payload_packets := 0
    uid := now
    server_index := 0
    client_ip := s.1
    client_port := s.2
    role := tcpRoleToU8 role
    port := port
    server_state := tcpStateToU8 (tcp_start_state (tcpRoleFromU8 (tcpRoleToU8 role))) }

/-- `fn push_state(&mut self, state: TcpState)` of `HasTcpState`
(src/lib.rs lines 206-217).  The write `self.state[self.state_count]`
is out of bounds when `state_count >= 7` (array `[u8; 7]`): that panic
is embedded as `none`.  The cycle-counter read is the argument `now`;
the `u64` difference is truncated by `/1000` and the `as u32` cast. -/
def ConRecord.push_state (r : ConRecord) (s : TcpState) (now : Nat) : Option ConRecord :=
  if r.state_count < 7 then
    some { r with
      state := r.state.set r.state_count (tcpStateToU8 s)
      base_stamp := if r.state_count = 0 then now else r.base_stamp
      stamps :=
        if r.state_count = 0 then r.stamps
        else r.stamps.set (r.state_count - 1)
          (((now - r.base_stamp) / TIME_STAMP_REDUCTION_FACTOR) % U32MOD)
      state_count := r.state_count + 1 }
  else none

/-- `fn last_state(&self) -> TcpState` of `HasTcpState` (src/lib.rs). -/
def ConRecord.last_state (r : ConRecord) : TcpState :=
  if r.state_count = 0 then tcp_start_state r.roleEnum
  else tcpStateFromU8 (r.state.getD (r.state_count - 1) 0)

/-- `fn states(&self) -> Vec<TcpState>` of `HasTcpState` (src/lib.rs
lines 228-235): a vector of length `state_count + 1` whose head is the
role's start state and whose tail is `state[0..state_count]` decoded. -/
def ConRecord.states (r : ConRecord) : List TcpState :=
  tcp_start_state r.roleEnum :: (r.state.take r.state_count).map tcpStateFromU8

/-- `fn get_last_stamp(&self) -> Option<u64>` of `HasTcpState` (src/lib.rs). -/
def ConRecord.get_last_stamp (r : ConRecord) : Option Nat :=
  match r.state_count with
  | 0 => none
  | 1 => some r.base_stamp
  | _ => some (r.base_stamp + r.stamps.getD (r.state_count - 2) 0 * TIME_STAMP_REDUCTION_FACTOR)

/-- `fn get_first_stamp(&self) -> Option<u64>` of `HasTcpState` (src/lib.rs). -/
def ConRecord.get_first_stamp (r : ConRecord) : Option Nat :=
  if r.state_count > 0 then some r.base_stamp else none

/-- `fn deltas_to_base_stamp(&self) -> Vec<u32>` of `HasTcpState` (src/lib.rs). -/
def ConRecord.deltas_to_base_stamp (r : ConRecord) : List Nat :=
  if r.state_count ≥ 2 then r.stamps.take (r.state_count - 1) else []

/-- Iterated `push_state` with an explicit timestamp for each call;
`none` as soon as one push panics. -/
def ConRecord.push_many (r : ConRecord) : List (TcpState × Nat) → Option ConRecord
  | [] => some r
  | (s, t) :: rest =>
    match r.push_state s t with
    | none => none
    | some r1 => r1.push_many rest

/-- `pub trait Storable { fn new() -> Self; }` (src/recstore.rs). -/
class Storable (T : Type) where
  new : T

instance : Storable ConRecord := ⟨ConRecord.new⟩

/-- `pub struct RecordStore<T: Storable>` (src/recstore.rs lines 22-25). -/
structure RecordStore (T : Type) where
  store : List T
  used_slots : Nat

/-- `RecordStore::with_capacity(capacity)` (src/recstore.rs lines 37-42). -/
def RecordStore.with_capacity (T : Type) [Storable T] (capacity : Nat) : RecordStore T :=
  { store := List.replicate capacity Storable.new, used_slots := 0 }

/-- `RecordStore::get_unused_slot()` (src/recstore.rs lines 44-53).
Returns the updated store, the slot number returned to the caller, and
whether the wrap branch (the `warn!` log line) was executed. -/
def RecordStore.get_unused_slot {T : Type} (s : RecordStore T) :
    RecordStore T × Nat × Bool :=
  let wrapped := s.store.length ≤ s.used_slots
  let s1 := if s.store.length ≤ s.used_slots then { s with used_slots := 0 } else s
  ({ s1 with used_slots := s1.used_slots + 1 }, s1.used_slots, wrapped)

/-- `RecordStore::len()` (src/recstore.rs lines 55-58). -/
def RecordStore.len {T : Type} (s : RecordStore T) : Nat := s.used_slots

/-- `RecordStore::get(slot)` (src/recstore.rs lines 74-81): `None` when
the slot is at or beyond `used_slots`, otherwise the record at physical
index `slot` of the backing array. -/
def RecordStore.get {T : Type} (s : RecordStore T) (slot : Nat) : Option T :=
  if slot < s.used_slots then s.store.get? slot else none

/-- `RecordStore::get_mut(slot)` (src/recstore.rs lines 65-72): the same
lookup as `get`; mutation through the returned reference is embedded at
the call sites (see `con_established`). -/
def RecordStore.get_mut {T : Type} (s : RecordStore T) (slot : Nat) : Option T :=
  if slot < s.used_slots then s.store.get? slot else none

/-- Driver: perform `k` consecutive `get_unused_slot` calls, collecting
the returned slot numbers in call order and the number of wrap events. -/
def RecordStore.run_allocs {T : Type} (s : RecordStore T) :
    Nat → RecordStore T × List Nat × Nat
  | 0 => (s, [], 0)
  | k + 1 =>
    let p := s.get_unused_slot
    let q := p.1.run_allocs k
    (q.1, p.2.1 :: q.2.1, (if p.2.2 then 1 else 0) + q.2.2)

/-- `fn con_established(&mut self)` of `ConRecordOperations`
(src/recstore.rs lines 241-244): looks the record up by slot, `unwrap`s
(panic embedded as `none`) and pushes `TcpState::Established`. -/
def con_established (s : RecordStore ConRecord) (slot : Nat) (now : Nat) :
    Option (RecordStore ConRecord) :=
  match s.get_mut slot with
  | none => none
  | some r =>
    match r.push_state .Established now with
    | none => none
    | some r1 => some { s with store := s.store.set slot r1 }

/-- `pub struct Store64<T: Storable>` (src/recstore.rs lines 117-121):
the dual-array variant with a `ConRecord` hot array and a generic cold
array. -/
structure Store64 (T : Type) where
  store_0 : List ConRecord
  store_1 : List T
  used_slots : Nat

/-- `Store64::with_capacity(capacity)` (src/recstore.rs lines 124-130). -/
def Store64.with_capacity (T : Type) [Storable T] (capacity : Nat) : Store64 T :=
  { store_0 := List.replicate capacity ConRecord.new
    store_1 := List.replicate capacity Storable.new
    used_slots := 0 }

/-- `Store64::get_unused_slot()` (src/recstore.rs lines 132-141).  The
wrap condition is transcribed exactly as written in the source:
`used_slots >= store_0.len() || used_slots < store_1.len()`. -/
def Store64.get_unused_slot {T : Type} (s : Store64 T) :
    Store64 T × Nat × Bool :=
  let wrapped := s.store_0.length ≤ s.used_slots ∨ s.used_slots < s.store_1.length
  let s1 :=
    if s.store_0.length ≤ s.used_slots ∨ s.used_slots < s.store_1.length then
      { s with used_slots := 0 }
    else s
  ({ s1 with used_slots := s1.used_slots + 1 }, s1.used_slots, wrapped)

/-- `Store64::len()` (src/recstore.rs lines 143-146). -/
def Store64.len {T : Type} (s : Store64 T) : Nat := s.used_slots

/-- `Store64::get(slot)` (src/recstore.rs lines 167-174). -/
def Store64.get {T : Type} (s : Store64 T) (slot : Nat) : Option ConRecord :=
  if slot < s.used_slots then s.store_0.get? slot else none

/-- Driver: `k` consecutive `Store64::get_unused_slot` calls. -/
def Store64.run_allocs {T : Type} (s : Store64 T) :
    Nat → Store64 T × List Nat × Nat
  | 0 => (s, [], 0)
  | k + 1 =>
    let p := s.get_unused_slot
    let q := p.1.run_allocs k
    (q.1, p.2.1 :: q.2.1, (if p.2.2 then 1 else 0) + q.2.2)

/-- Lookup in the embedded `BTreeMap<u32, usize>` `sock_tree`
(association list; keys are inserted only when absent). -/
def treeGet : List (Nat × Nat) → Nat → Option Nat
  | [], _ => none
  | (k, v) :: rest, ip => if k = ip then some v else treeGet rest ip

/-- Wrapping `u16` subtraction of 1 (`(port - 1) as usize` on a `u16`):
0 wraps to 65535, any `port` in 1..=65535 gives `port - 1`. -/
def u16sub1 (p : Nat) : Nat := (p + 65535) % 65536

/-- `pub struct Sock2Index` (src/utils.rs lines 48-52): outer map from
IP to bank id, 8 banks of 0xFFFF = 65535 port entries, and the
free-list of bank ids. -/
structure Sock2Index where
  sock_tree : List (Nat × Nat)
  port_maps : List (List Nat)
  free_maps : List Nat
deriving DecidableEq, Repr

/-- `Sock2Index::new()` (src/utils.rs lines 54-61). -/
def Sock2Index.new : Sock2Index :=
  { sock_tree := []
    port_maps := List.replicate 8 (List.replicate 65535 0)
    free_maps := List.range 8 }

/-- `Sock2Index::get(sock)` (src/utils.rs lines 63-76).  Outer `none`
embeds a panic (the `assert!(port > 0)` or an out-of-bounds bank read);
`some none` is a miss (absent IP or stored value 0); `some (some v)` a
hit. -/
def Sock2Index.get (s : Sock2Index) (sock : Nat × Nat) : Option (Option Nat) :=
  let ip := sock.1
  let port := sock.2
  if port > 0 then
    match treeGet s.sock_tree ip with
    | none => some none
    | some b =>
      match (s.port_maps.getD b []).get? (u16sub1 port) with
      | none => none
      | some v => some (if v = 0 then none else some v)
  else none

/-- Second phase of `Sock2Index::insert` (src/utils.rs lines 89-90):
`let port_map_ix = self.sock_tree.get(&ip).unwrap();` followed by the
bank write `self.port_maps[*port_map_ix][(sock.1 - 1) as usize] = index`.
`none` embeds a panic (the `unwrap` or an out-of-bounds bank write). -/
def Sock2Index.insertBank (s1 : Sock2Index) (ip port index : Nat) : Option Sock2Index :=
  match treeGet s1.sock_tree ip with
  | none => none
  | some b =>
    let bank := s1.port_maps.getD b []
    let idx := u16sub1 port
    if idx < bank.length then
      some { s1 with port_maps := s1.port_maps.set b (bank.set idx index) }
    else none

/-- `Sock2Index::insert(sock, index)` (src/utils.rs lines 78-91): for a
new IP, pop a bank id from the free-list (`none` embeds the `expect`
panic on exhaustion) and record the IP→bank mapping, then write the
slot into the bank at `(port - 1) as usize` (`insertBank`). -/
def Sock2Index.insert (s : Sock2Index) (sock : Nat × Nat) (index : Nat) :
    Option Sock2Index :=
  if (treeGet s.sock_tree sock.1).isNone then
    match s.free_maps with
    | [] => none
    | b :: rest =>
      Sock2Index.insertBank
        { s with sock_tree := (sock.1, b) :: s.sock_tree, free_maps := rest }
        sock.1 sock.2 index
  else Sock2Index.insertBank s sock.1 sock.2 index

/-- `Sock2Index::remove(sock)` (src/utils.rs lines 93-107).  `none`
embeds the out-of-bounds panic; on success returns the updated index and
the previous mapping (if any). -/
def Sock2Index.remove (s : Sock2Index) (sock : Nat × Nat) :
    Option (Sock2Index × Option Nat) :=
  match treeGet s.sock_tree sock.1 with
  | none => some (s, none)
  | some b =>
    let bank := s.port_maps.getD b []
    let idx := u16sub1 sock.2
    match bank.get? idx with
    | none => none
    | some old =>
      some ({ s with port_maps := s.port_maps.set b (bank.set idx 0) },
        if old = 0 then none else some old)

/-- Iterated `insert`; `none` as soon as one insert panics. -/
def Sock2Index.insert_many (s : Sock2Index) :
    List ((Nat × Nat) × Nat) → Option Sock2Index
  | [] => some s
  | (sock, v) :: rest =>
    match s.insert sock v with
    | none => none
    | some s1 => s1.insert_many rest

/-- Structural well-formedness of a `Sock2Index`, true of `new` and
preserved by the operations: 8 banks of 65535 entries, and every bank
id (mapped or free) in range. -/
def Sock2Index.WF (s : Sock2Index) : Prop :=
  s.port_maps.length = 8 ∧
  (∀ b ∈ s.port_maps, b.length = 65535) ∧
  (∀ p ∈ s.sock_tree, p.2 < 8) ∧
  (∀ b ∈ s.free_maps, b < 8)

theorem get_unused_slot_eq {T : Type} (s : RecordStore T) :
    s.get_unused_slot =
      if s.store.length ≤ s.used_slots then (⟨s.store, 1⟩, 0, true)
      else (⟨s.store, s.used_slots + 1⟩, s.used_slots, false) := by
  obtain ⟨st, u⟩ := s
  by_cases h : st.length ≤ u
  · simp [RecordStore.get_unused_slot, h]
  · simp [RecordStore.get_unused_slot, h]

theorem run_allocs_succ_right {T : Type} (k : Nat) : ∀ (s : RecordStore T),
    s.run_allocs (k + 1) =
      (((s.run_allocs k).1.get_unused_slot).1,
       (s.run_allocs k).2.1 ++ [((s.run_allocs k).1.get_unused_slot).2.1],
       (s.run_allocs k).2.2 + (if ((s.run_allocs k).1.get_unused_slot).2.2 then 1 else 0)) := by
  induction k with
  | zero =>
    intro s
    simp [RecordStore.run_allocs]
  | succ n ih =>
    intro s
    have h1 : s.run_allocs (n + 1 + 1) =
        ((s.get_unused_slot.1.run_allocs (n + 1)).1,
         s.get_unused_slot.2.1 :: (s.get_unused_slot.1.run_allocs (n + 1)).2.1,
         (if s.get_unused_slot.2.2 then 1 else 0) +
           (s.get_unused_slot.1.run_allocs (n + 1)).2.2) := rfl
    have h2 : s.run_allocs (n + 1) =
        ((s.get_unused_slot.1.run_allocs n).1,
         s.get_unused_slot.2.1 :: (s.get_unused_slot.1.run_allocs n).2.1,
         (if s.get_unused_slot.2.2 then 1 else 0) +
           (s.get_unused_slot.1.run_allocs n).2.2) := rfl
    rw [h1, ih s.get_unused_slot.1, h2]
    simp only [Prod.mk.injEq]
    refine ⟨trivial, by simp, by omega⟩

theorem run_allocs_no_wrap {T : Type} (k : Nat) : ∀ (s : RecordStore T),
    s.used_slots + k ≤ s.store.length →
    (s.run_allocs k).1 = ⟨s.store, s.used_slots + k⟩ ∧ (s.run_allocs k).2.2 = 0 := by
  induction k with
  | zero =>
    intro s _
    simp [RecordStore.run_allocs]
  | succ n ih =>
    intro s h
    have hstep : s.get_unused_slot = (⟨s.store, s.used_slots + 1⟩, s.used_slots, false) := by
      rw [get_unused_slot_eq, if_neg (by omega)]
    have hrec := ih ⟨s.store, s.used_slots + 1⟩ (by simp; omega)
    simp only [RecordStore.run_allocs, hstep]
    simp only at hrec
    refine ⟨by rw [hrec.1]; simp [Nat.add_assoc, Nat.add_comm 1 n], by simp [hrec.2]⟩

theorem succ_mod_split (a N : Nat) (hN : 1 ≤ N) :
    (a + 1) % N = if a % N + 1 = N then 0 else a % N + 1 := by
  have h1 : (a + 1) % N = (a % N + 1) % N := (Nat.mod_add_mod a N 1).symm
  rw [h1]
  split
  · next h => rw [h, Nat.mod_self]
  · next h =>
    have hlt : a % N < N := Nat.mod_lt _ (by omega)
    exact Nat.mod_eq_of_lt (by omega)

theorem run_allocs_store_fixed {T : Type} (k : Nat) : ∀ (s : RecordStore T),
    (s.run_allocs k).1.store = s.store := by
  induction k with
  | zero => intro s; rfl
  | succ n ih =>
    intro s
    simp only [RecordStore.run_allocs]
    rw [ih]
    rw [get_unused_slot_eq]
    split <;> rfl

theorem run_allocs_used_closed (N k : Nat) (hN : 1 ≤ N) :
    ((RecordStore.with_capacity ConRecord N).run_allocs k).1.used_slots =
      if k = 0 then 0 else (k - 1) % N + 1 := by
  induction k with
  | zero => rfl
  | succ n ih =>
    rw [run_allocs_succ_right, get_unused_slot_eq]
    have hlen : ((RecordStore.with_capacity ConRecord N).run_allocs n).1.store.length = N := by
      rw [run_allocs_store_fixed]; simp [RecordStore.with_capacity]
    simp only [hlen, ih]
    cases n with
    | zero =>
      rw [if_pos rfl, if_neg (show ¬ N ≤ 0 by omega), if_neg (Nat.succ_ne_zero 0)]
      simp
    | succ m =>
      have hm : m % N < N := Nat.mod_lt _ (by omega)
      rw [if_neg (Nat.succ_ne_zero m), if_neg (Nat.succ_ne_zero (m + 1))]
      simp only [Nat.succ_sub_one]
      rw [succ_mod_split m N hN]
      by_cases hc : m % N + 1 = N
      · rw [if_pos (by omega), if_pos hc]
      · rw [if_neg (by omega), if_neg hc]

/-- Claim C1: for a `RecordStore` of capacity N ≥ 1, after exactly N
`get_unused_slot` calls no wrap has occurred and `len() = N`; after the
(N+1)-th call exactly one wrap has occurred, `len() = 1`, the slot
returned by the (N+1)-th call is 0, and passing it to `get` resolves to
physical index 0 of the backing array (and that access succeeds). -/
theorem c1_store_wrap_after_capacity (N : Nat) (hN : 1 ≤ N) :
    ((RecordStore.with_capacity ConRecord N).run_allocs N).2.2 = 0 ∧
    ((RecordStore.with_capacity ConRecord N).run_allocs N).1.len = N ∧
    ((RecordStore.with_capacity ConRecord N).run_allocs (N + 1)).2.2 = 1 ∧
    ((RecordStore.with_capacity ConRecord N).run_allocs (N + 1)).1.len = 1 ∧
    ((RecordStore.with_capacity ConRecord N).run_allocs (N + 1)).2.1.getLast? = some 0 ∧
    ((RecordStore.with_capacity ConRecord N).run_allocs (N + 1)).1.get 0 =
      ((RecordStore.with_capacity ConRecord N).run_allocs (N + 1)).1.store.get? 0 ∧
    (((RecordStore.with_capacity ConRecord N).run_allocs (N + 1)).1.store.get? 0).isSome := by
  have h0 : (RecordStore.with_capacity ConRecord N).used_slots = 0 := rfl
  have hcap : (RecordStore.with_capacity ConRecord N).store.length = N := by
    simp [RecordStore.with_capacity]
  have hN' := run_allocs_no_wrap N (RecordStore.with_capacity ConRecord N) (by omega)
  have hstate : ((RecordStore.with_capacity ConRecord N).run_allocs N).1 =
      ⟨(RecordStore.with_capacity ConRecord N).store, N⟩ := by
    rw [hN'.1, h0]; simp
  have hstep : (((RecordStore.with_capacity ConRecord N).run_allocs N).1.get_unused_slot) =
      (⟨(RecordStore.with_capacity ConRecord N).store, 1⟩, 0, true) := by
    rw [hstate, get_unused_slot_eq, if_pos (by rw [hcap])]
  refine ⟨hN'.2, by rw [RecordStore.len, hstate], ?_, ?_, ?_, ?_, ?_⟩
  · rw [run_allocs_succ_right, hstep, hN'.2]
    simp
  · rw [run_allocs_succ_right, hstep, RecordStore.len]
  · rw [run_allocs_succ_right, hstep]
    exact List.getLast?_concat _
  · rw [run_allocs_succ_right, hstep]
    rfl
  · rw [run_allocs_succ_right, hstep]
    cases N with
    | zero => omega
    | succ m => simp [RecordStore.with_capacity, List.replicate_succ]

/-- Claim C1 witness: instantiation at capacity N = 3. -/
theorem c1_store_wrap_after_capacity_witness :
    ((RecordStore.with_capacity ConRecord 3).run_allocs 3).2.2 = 0 ∧
    ((RecordStore.with_capacity ConRecord 3).run_allocs 3).1.len = 3 ∧
    ((RecordStore.with_capacity ConRecord 3).run_allocs (3 + 1)).2.2 = 1 ∧
    ((RecordStore.with_capacity ConRecord 3).run_allocs (3 + 1)).1.len = 1 ∧
    ((RecordStore.with_capacity ConRecord 3).run_allocs (3 + 1)).2.1.getLast? = some 0 ∧
    ((RecordStore.with_capacity ConRecord 3).run_allocs (3 + 1)).1.get 0 =
      ((RecordStore.with_capacity ConRecord 3).run_allocs (3 + 1)).1.store.get? 0 ∧
    (((RecordStore.with_capacity ConRecord 3).run_allocs (3 + 1)).1.store.get? 0).isSome :=
  c1_store_wrap_after_capacity 3 (by decide)

/-- Claim C2: the dual-array `Store64` does NOT allocate in lock-step
with `RecordStore`.  Its wrap condition reads
`used_slots >= store_0.len() || used_slots < store_1.len()`; the second
disjunct is true for every `used_slots` below capacity, so the store
wraps on every single call.  Evaluated at capacity 2 and two calls:
`RecordStore` returns slots [0, 1] with no wrap and `len() = 2`, while
`Store64` returns slots [0, 0] with a wrap on each call and
`len() = 1`. -/
theorem c2_store64_wraps_every_call_eval :
    ((RecordStore.with_capacity ConRecord 2).run_allocs 2).2.1 = [0, 1] ∧
    ((RecordStore.with_capacity ConRecord 2).run_allocs 2).2.2 = 0 ∧
    ((RecordStore.with_capacity ConRecord 2).run_allocs 2).1.len = 2 ∧
    ((Store64.with_capacity ConRecord 2).run_allocs 2).2.1 = [0, 0] ∧
    ((Store64.with_capacity ConRecord 2).run_allocs 2).2.2 = 2 ∧
    ((Store64.with_capacity ConRecord 2).run_allocs 2).1.len = 1 := by
  refine ⟨?_, ?_, ?_, ?_, ?_, ?_⟩ <;> decide

/-- Claim C3 counterexample: on a store of capacity 2, after 3
`get_unused_slot` calls `len()` is 1, not `min 3 2 = 2`: the length
drops back after a wrap instead of staying at capacity. -/
theorem c3_len_not_min_counterexample :
    ((RecordStore.with_capacity ConRecord 2).run_allocs 3).1.len ≠ min 3 2 ∧
    ((RecordStore.with_capacity ConRecord 2).run_allocs 3).1.len = 1 := by
  constructor <;> decide

/-- Claim C3 (amended): after k `get_unused_slot` calls on a fresh store
of capacity N ≥ 1, `len()` is 0 for k = 0 and `(k - 1) % N + 1`
otherwise; this agrees with `min k N` only while `k ≤ N` (before the
first wrap). -/
theorem c3_len_closed_form (N k : Nat) (hN : 1 ≤ N) :
    ((RecordStore.with_capacity ConRecord N).run_allocs k).1.len =
      (if k = 0 then 0 else (k - 1) % N + 1) ∧
    (k ≤ N → ((RecordStore.with_capacity ConRecord N).run_allocs k).1.len = min k N) := by
  have h : ((RecordStore.with_capacity ConRecord N).run_allocs k).1.len =
      if k = 0 then 0 else (k - 1) % N + 1 := run_allocs_used_closed N k hN
  refine ⟨h, fun hk => ?_⟩
  rw [h]
  cases k with
  | zero => simp
  | succ m =>
    rw [if_neg (Nat.succ_ne_zero m)]
    have hmod : (m + 1 - 1) % N = m := by
      simp only [Nat.succ_sub_one]
      exact Nat.mod_eq_of_lt (by omega)
    omega

/-- Claim C3 witness: instantiation at capacity 2 and 5 calls. -/
theorem c3_len_closed_form_witness :
    ((RecordStore.with_capacity ConRecord 2).run_allocs 5).1.len =
      (if 5 = 0 then 0 else (5 - 1) % 2 + 1) ∧
    (5 ≤ 2 → ((RecordStore.with_capacity ConRecord 2).run_allocs 5).1.len = min 5 2) :=
  c3_len_closed_form 2 5 (by decide)

theorem tcpState_roundtrip (s : TcpState) : tcpStateFromU8 (tcpStateToU8 s) = s := by
  cases s <;> rfl

theorem tcpRole_roundtrip (r : TcpRole) : tcpRoleFromU8 (tcpRoleToU8 r) = r := by
  cases r <;> rfl

theorem take_set_succ {α : Type} (a : α) : ∀ (l : List α) (n : Nat), n < l.length →
    (l.set n a).take (n + 1) = l.take n ++ [a] := by
  intro l
  induction l with
  | nil => intro n h; simp at h
  | cons x xs ih =>
    intro n h
    cases n with
    | zero => simp
    | succ m =>
      simp only [List.set_cons_succ, List.take_succ_cons, List.cons_append, List.cons.injEq,
        true_and]
      exact ih m (by simpa using Nat.lt_of_succ_lt_succ h)

theorem push_state_spec (r : ConRecord) (s : TcpState) (now : Nat)
    (h7 : r.state_count < 7) (hlen : r.state.length = 7) :
    ∃ r1, r.push_state s now = some r1 ∧
      r1.state_count = r.state_count + 1 ∧
      r1.states = r.states ++ [s] ∧
      r1.state.length = 7 ∧
      r1.roleEnum = r.roleEnum := by
  rw [ConRecord.push_state, if_pos h7]
  refine ⟨_, rfl, rfl, ?_, ?_, rfl⟩
  · show ConRecord.states _ = ConRecord.states r ++ [s]
    unfold ConRecord.states
    simp only [ConRecord.roleEnum, List.cons_append, List.cons.injEq, true_and]
    rw [take_set_succ (tcpStateToU8 s) r.state r.state_count (by omega)]
    simp [tcpState_roundtrip]
  · simp [hlen]

theorem push_many_spec (l : List (TcpState × Nat)) : ∀ (r : ConRecord),
    r.state.length = 7 → r.state_count + l.length ≤ 7 →
    ∃ r1, r.push_many l = some r1 ∧
      r1.state_count = r.state_count + l.length ∧
      r1.states = r.states ++ l.map Prod.fst ∧
      r1.state.length = 7 ∧
      r1.roleEnum = r.roleEnum := by
  induction l with
  | nil =>
    intro r h1 _
    exact ⟨r, rfl, by simp, by simp, h1, rfl⟩
  | cons p rest ih =>
    intro r h1 h2
    obtain ⟨s, t⟩ := p
    obtain ⟨r1, hpush, hcnt, hst, hl7, hrole⟩ :=
      push_state_spec r s t (by simp only [List.length_cons] at h2; omega) h1
    obtain ⟨r2, hrec, hcnt2, hst2, hl72, hrole2⟩ :=
      ih r1 hl7 (by simp only [List.length_cons] at h2; omega)
    refine ⟨r2, ?_, ?_, ?_, hl72, by rw [hrole2, hrole]⟩
    · show ConRecord.push_many r ((s, t) :: rest) = some r2
      simp only [ConRecord.push_many, hpush]
      exact hrec
    · rw [hcnt2, hcnt]
      simp only [List.length_cons]
      omega
    · rw [hst2, hst]
      simp

theorem push_many_isSome (l : List (TcpState × Nat)) : ∀ (r : ConRecord),
    r.state_count + l.length ≤ 7 → (r.push_many l).isSome := by
  induction l with
  | nil => intro r _; rfl
  | cons p rest ih =>
    intro r h
    obtain ⟨s, t⟩ := p
    have h7 : r.state_count < 7 := by simp only [List.length_cons] at h; omega
    rw [ConRecord.push_many, ConRecord.push_state, if_pos h7]
    exact ih _ (show r.state_count + 1 + rest.length ≤ 7 by
      simp only [List.length_cons] at h; omega)

/-- Claim C5: `push_state` on a record with `state_count ≤ 6` stays
within the bounds of the `state` (7 entries) and `stamps` (6 entries)
arrays and increments `state_count`; on a record with `state_count = 7`
(full history) the out-of-bounds write is taken (embedded as the fatal
`none`); and the fatal branch is unreachable when a record starting
fresh receives at most 7 transitions. -/
theorem c5_push_state_bounds (r : ConRecord) (st : TcpState) (now : Nat)
    (l : List (TcpState × Nat)) :
    (r.state_count ≤ 6 →
      r.state_count < 7 ∧ (r.state_count ≠ 0 → r.state_count - 1 < 6) ∧
      ∃ r1, r.push_state st now = some r1 ∧ r1.state_count = r.state_count + 1) ∧
    (r.state_count = 7 → r.push_state st now = none) ∧
    (r.state_count = 0 → l.length ≤ 7 → (r.push_many l).isSome) := by
  refine ⟨fun h6 => ⟨by omega, fun h0 => by omega, ?_⟩, fun h7 => ?_, fun h0 hl => ?_⟩
  · rw [ConRecord.push_state, if_pos (by omega)]
    exact ⟨_, rfl, rfl⟩
  · rw [ConRecord.push_state, if_neg (by omega)]
  · exact push_many_isSome l r (by omega)

/-- Claim C5 witness: a fresh record takes one push and a 7-push
sequence; a record with a full history takes the fatal branch. -/
theorem c5_push_state_bounds_witness :
    (ConRecord.new.state_count ≤ 6 →
      ConRecord.new.state_count < 7 ∧
      (ConRecord.new.state_count ≠ 0 → ConRecord.new.state_count - 1 < 6) ∧
      ∃ r1, ConRecord.new.push_state TcpState.Established 5 = some r1 ∧
        r1.state_count = ConRecord.new.state_count + 1) ∧
    (ConRecord.new.state_count = 7 →
      ConRecord.new.push_state TcpState.Established 5 = none) ∧
    (ConRecord.new.state_count = 0 →
      ([(TcpState.SynSent, 1), (TcpState.Established, 2)] : List (TcpState × Nat)).length ≤ 7 →
      (ConRecord.new.push_many [(TcpState.SynSent, 1), (TcpState.Established, 2)]).isSome) :=
  c5_push_state_bounds ConRecord.new TcpState.Established 5
    [(TcpState.SynSent, 1), (TcpState.Established, 2)]

/-- Claim C7 counterexample: `init` does not reset `release_cause`.  A
record whose release cause was ActiveClose keeps it across
`init(Client, 7, None)`, while a freshly constructed record carries
Unknown — so not every non-argument field of an initialized record
matches a fresh record. -/
theorem c7_release_cause_retained_counterexample :
    (({ ConRecord.new with
        release_cause := releaseCauseToU8 .ActiveClose } : ConRecord).init
          .Client 7 none 42).release_cause = releaseCauseToU8 .ActiveClose ∧
    ConRecord.new.release_cause = releaseCauseToU8 .Unknown ∧
    releaseCauseToU8 ReleaseCause.ActiveClose ≠ releaseCauseToU8 ReleaseCause.Unknown :=
  ⟨rfl, rfl, by decide⟩

/-- Claim C7 (amended): after `init(role, port, sock)` every observable
field of the record equals that of a freshly constructed record except
the fields set from the arguments (`role`, `port`, `sock`), the freshly
stamped `uid`, `server_state` set to the role's TCP starting state —
and `release_cause`, which retains its prior value (it is the one field
`init` does not reset). -/
theorem c7_init_resets_fields (r : ConRecord) (role : TcpRole) (port : Nat)
    (sock : Option (Nat × Nat)) (now : Nat) :
    (r.init role port sock now).roleEnum = role ∧
    (r.init role port sock now).port = port ∧
    (r.init role port sock now).sockAcc = sock.getD (0, 0) ∧
    (r.init role port sock now).uid = now ∧
    (r.init role port sock now).serverStateAcc = tcp_start_state role ∧
    (r.init role port sock now).server_index = ConRecord.new.server_index ∧
    (r.init role port sock now).sent_payload_packets = ConRecord.new.sent_payload_packets ∧
    (r.init role port sock now).recv_payload_packets = ConRecord.new.recv_payload_packets ∧
    (r.init role port sock now).base_stamp = ConRecord.new.base_stamp ∧
    (r.init role port sock now).state_count = ConRecord.new.state_count ∧
    (r.init role port sock now).states = [tcp_start_state role] ∧
    (r.init role port sock now).last_state = tcp_start_state role ∧
    (r.init role port sock now).get_first_stamp = ConRecord.new.get_first_stamp ∧
    (r.init role port sock now).get_last_stamp = ConRecord.new.get_last_stamp ∧
    (r.init role port sock now).deltas_to_base_stamp = ConRecord.new.deltas_to_base_stamp ∧
    (r.init role port sock now).release_cause = r.release_cause := by
  refine ⟨?_, rfl, ?_, rfl, ?_, rfl, rfl, rfl, rfl, rfl, ?_, ?_, rfl, rfl, rfl, rfl⟩
  · show tcpRoleFromU8 (tcpRoleToU8 role) = role
    exact tcpRole_roundtrip role
  · show ((sock.getD (0, 0)).1, (sock.getD (0, 0)).2) = sock.getD (0, 0)
    rfl
  · show tcpStateFromU8
        (tcpStateToU8 (tcp_start_state (tcpRoleFromU8 (tcpRoleToU8 role)))) =
      tcp_start_state role
    rw [tcpRole_roundtrip, tcpState_roundtrip]
  · show tcp_start_state (tcpRoleFromU8 (tcpRoleToU8 role)) :: _ = [tcp_start_state role]
    rw [tcpRole_roundtrip]
    rfl
  · rw [ConRecord.last_state,
      if_pos (show (r.init role port sock now).state_count = 0 from rfl)]
    show tcp_start_state (tcpRoleFromU8 (tcpRoleToU8 role)) = tcp_start_state role
    rw [tcpRole_roundtrip]

/-- Claim C9: on a fresh record (`state_count = 0`, state array of 7),
any sequence of k ≤ 7 `push_state` calls succeeds and `states()` is the
role's starting state followed by the pushed states in call order
(length k + 1). -/
theorem c9_states_sequence (r : ConRecord) (l : List (TcpState × Nat))
    (h0 : r.state_count = 0) (hlen : r.state.length = 7) (hk : l.length ≤ 7) :
    ∃ r1, r.push_many l = some r1 ∧
      r1.states = tcp_start_state r.roleEnum :: l.map Prod.fst ∧
      r1.states.length = l.length + 1 := by
  obtain ⟨r1, hp, hcnt, hst, hl7, hrole⟩ := push_many_spec l r hlen (by omega)
  have hr : r.states = [tcp_start_state r.roleEnum] := by
    unfold ConRecord.states
    rw [h0]
    simp
  refine ⟨r1, hp, ?_, ?_⟩
  · rw [hst, hr]
    simp
  · rw [hst, hr]
    simp

/-- Claim C9 witness: two pushes on a freshly constructed record. -/
theorem c9_states_sequence_witness :
    ∃ r1, ConRecord.new.push_many [(TcpState.SynSent, 5), (TcpState.Established, 9)] = some r1 ∧
      r1.states = tcp_start_state ConRecord.new.roleEnum ::
        ([(TcpState.SynSent, 5), (TcpState.Established, 9)].map Prod.fst) ∧
      r1.states.length =
        ([(TcpState.SynSent, 5), (TcpState.Established, 9)] : List (TcpState × Nat)).length + 1 :=
  c9_states_sequence ConRecord.new [(TcpState.SynSent, 5), (TcpState.Established, 9)]
    (by decide) (by decide) (by decide)

/-- Claim C8: for any store (with the reachable-store invariant
`used_slots ≤ capacity`) and any slot at or beyond `len()`, `get` and
`get_mut` return nothing usable and a capability operation that unwraps
the lookup (`con_established`) hits the fatal `unwrap` panic; for any
slot below `len()` the access succeeds. -/
theorem c8_slot_access (s : RecordStore ConRecord) (slot now : Nat)
    (hinv : s.used_slots ≤ s.store.length) :
    (s.len ≤ slot →
      s.get slot = none ∧ s.get_mut slot = none ∧ con_established s slot now = none) ∧
    (slot < s.len → (s.get slot).isSome ∧ (s.get_mut slot).isSome) := by
  constructor
  · intro h
    have hg : s.get slot = none := by
      rw [RecordStore.get, if_neg (by rw [RecordStore.len] at h; omega)]
    have hgm : s.get_mut slot = none := by
      rw [RecordStore.get_mut, if_neg (by rw [RecordStore.len] at h; omega)]
    refine ⟨hg, hgm, ?_⟩
    rw [con_established, hgm]
  · intro h
    rw [RecordStore.len] at h
    have hlt : slot < s.store.length := by omega
    constructor
    · rw [RecordStore.get, if_pos h, List.get?_eq_getElem?, List.getElem?_eq_getElem hlt]
      rfl
    · rw [RecordStore.get_mut, if_pos h, List.get?_eq_getElem?, List.getElem?_eq_getElem hlt]
      rfl

/-- Claim C8 witness: a two-record store with one used slot — slot 1 is
out of range and fatal, slot 0 succeeds. -/
theorem c8_slot_access_witness :
    ((RecordStore.mk (List.replicate 2 ConRecord.new) 1).get 1 = none ∧
      (RecordStore.mk (List.replicate 2 ConRecord.new) 1).get_mut 1 = none ∧
      con_established (RecordStore.mk (List.replicate 2 ConRecord.new) 1) 1 5 = none) ∧
    (((RecordStore.mk (List.replicate 2 ConRecord.new) 1).get 0).isSome ∧
      ((RecordStore.mk (List.replicate 2 ConRecord.new) 1).get_mut 0).isSome) :=
  ⟨(c8_slot_access ⟨List.replicate 2 ConRecord.new, 1⟩ 1 5 (by simp)).1 (by decide),
   (c8_slot_access ⟨List.replicate 2 ConRecord.new, 1⟩ 0 5 (by simp)).2 (by decide)⟩

theorem wf_new : Sock2Index.new.WF := by
  refine ⟨?_, ?_, ?_, ?_⟩
  · show (List.replicate 8 (List.replicate 65535 0)).length = 8
    rw [List.length_replicate]
  · intro b hb
    have hbe : b = List.replicate 65535 0 := List.eq_of_mem_replicate hb
    rw [hbe, List.length_replicate]
  · intro p hp
    exact absurd hp (List.not_mem_nil p)
  · intro b hb
    exact List.mem_range.mp hb

theorem u16sub1_in_range (port : Nat) (h1 : 1 ≤ port) (h2 : port ≤ 65535) :
    u16sub1 port = port - 1 ∧ port - 1 < 65535 := by
  unfold u16sub1
  omega

theorem u16sub1_zero : u16sub1 0 = 65535 := by decide

theorem treeGet_mem : ∀ (t : List (Nat × Nat)) (ip b : Nat),
    treeGet t ip = some b → (ip, b) ∈ t := by
  intro t
  induction t with
  | nil => intro ip b h; simp [treeGet] at h
  | cons p rest ih =>
    intro ip b h
    obtain ⟨k, v⟩ := p
    rw [treeGet] at h
    by_cases hk : k = ip
    · rw [if_pos hk] at h
      injection h with h
      subst hk
      subst h
      exact List.mem_cons_self _ _
    · rw [if_neg hk] at h
      exact List.mem_cons_of_mem _ (ih ip b h)

theorem treeGet_cons (k v ip : Nat) (t : List (Nat × Nat)) :
    treeGet ((k, v) :: t) ip = if k = ip then some v else treeGet t ip := rfl

theorem bank_length (s : Sock2Index) (hWF : s.WF) (b : Nat) (hb : b < 8) :
    (s.port_maps.getD b []).length = 65535 := by
  have hblen : b < s.port_maps.length := by rw [hWF.1]; exact hb
  rw [List.getD_eq_getElem?_getD, List.getElem?_eq_getElem hblen]
  exact hWF.2.1 _ (List.getElem_mem hblen)

theorem getD_set_self (l : List (List Nat)) (b : Nat) (x : List Nat) (hb : b < l.length) :
    (l.set b x).getD b [] = x := by
  rw [List.getD_eq_getElem?_getD, List.getElem?_set_self (by simpa using hb)]
  rfl

theorem get?_set_self (l : List Nat) (i v : Nat) (h : i < l.length) :
    (l.set i v).get? i = some v := by
  rw [List.get?_eq_getElem?, List.getElem?_set_self (by simpa using h)]

theorem insertBank_eq (s1 : Sock2Index) (ip port v b : Nat)
    (hb : treeGet s1.sock_tree ip = some b)
    (hidx : u16sub1 port < (s1.port_maps.getD b []).length) :
    s1.insertBank ip port v =
      some { s1 with
        port_maps := s1.port_maps.set b ((s1.port_maps.getD b []).set (u16sub1 port) v) } := by
  unfold Sock2Index.insertBank
  rw [hb]
  dsimp only
  rw [if_pos hidx]

theorem insert_known_eq (s : Sock2Index) (ip port v b : Nat)
    (hb : treeGet s.sock_tree ip = some b)
    (hidx : u16sub1 port < (s.port_maps.getD b []).length) :
    s.insert (ip, port) v =
      some { s with
        port_maps := s.port_maps.set b ((s.port_maps.getD b []).set (u16sub1 port) v) } := by
  unfold Sock2Index.insert
  dsimp only
  rw [hb]
  simp only [Option.isNone_some, Bool.false_eq_true, if_false]
  exact insertBank_eq s ip port v b hb hidx

theorem insert_new_eq (s : Sock2Index) (ip port v b : Nat) (rest : List Nat)
    (hip : treeGet s.sock_tree ip = none)
    (hfree : s.free_maps = b :: rest)
    (hidx : u16sub1 port < (s.port_maps.getD b []).length) :
    s.insert (ip, port) v =
      some { sock_tree := (ip, b) :: s.sock_tree
             port_maps := s.port_maps.set b ((s.port_maps.getD b []).set (u16sub1 port) v)
             free_maps := rest } := by
  unfold Sock2Index.insert
  dsimp only
  rw [hip, hfree]
  simp only [Option.isNone_none, if_true]
  rw [insertBank_eq _ ip port v b (by rw [treeGet_cons, if_pos rfl]) (by exact hidx)]

theorem wf_after_set_bank (s : Sock2Index) (hWF : s.WF) (b : Nat) (bank2 : List Nat)
    (hlen : bank2.length = 65535) :
    Sock2Index.WF { s with port_maps := s.port_maps.set b bank2 } := by
  refine ⟨by simp [hWF.1], ?_, hWF.2.2.1, hWF.2.2.2⟩
  intro bk hbk
  rcases List.mem_or_eq_of_mem_set hbk with h | h
  · exact hWF.2.1 _ h
  · rw [h]; exact hlen

theorem wf_after_new_ip (s : Sock2Index) (hWF : s.WF) (ip b : Nat) (rest : List Nat)
    (hfree : s.free_maps = b :: rest) (bank2 : List Nat) (hlen : bank2.length = 65535) :
    Sock2Index.WF
      { sock_tree := (ip, b) :: s.sock_tree
        port_maps := s.port_maps.set b bank2
        free_maps := rest } := by
  have hb8 : b < 8 := hWF.2.2.2 b (by rw [hfree]; exact List.mem_cons_self _ _)
  refine ⟨by simp [hWF.1], ?_, ?_, ?_⟩
  · intro bk hbk
    rcases List.mem_or_eq_of_mem_set hbk with h | h
    · exact hWF.2.1 _ h
    · rw [h]; exact hlen
  · intro p hp
    rcases List.mem_cons.mp hp with h | h
    · rw [h]; exact hb8
    · exact hWF.2.2.1 _ h
  · intro bk hbk
    exact hWF.2.2.2 bk (by rw [hfree]; exact List.mem_cons_of_mem _ hbk)

theorem insert_get_spec (s : Sock2Index) (ip port v : Nat) (hWF : s.WF)
    (h1 : 1 ≤ port) (h2 : port ≤ 65535)
    (hroom : s.free_maps ≠ [] ∨ (treeGet s.sock_tree ip).isSome) :
    ∃ s2, s.insert (ip, port) v = some s2 ∧ s2.WF ∧
      (∃ b, treeGet s2.sock_tree ip = some b ∧ b < 8) ∧
      s2.get (ip, port) = some (if v = 0 then none else some v) := by
  have hur := u16sub1_in_range port h1 h2
  cases hb : treeGet s.sock_tree ip with
  | some b =>
    have hb8 : b < 8 := hWF.2.2.1 _ (treeGet_mem _ _ _ hb)
    have hbl := bank_length s hWF b hb8
    have hidx : u16sub1 port < (s.port_maps.getD b []).length := by omega
    refine ⟨_, insert_known_eq s ip port v b hb hidx, ?_, ⟨b, hb, hb8⟩, ?_⟩
    · exact wf_after_set_bank s hWF b _ (by rw [List.length_set, hbl])
    · unfold Sock2Index.get
      dsimp only
      rw [if_pos (by omega : (0 : Nat) < port)]
      rw [hb]
      dsimp only
      rw [getD_set_self _ _ _ (by rw [hWF.1]; exact hb8)]
      rw [get?_set_self _ _ _ (by omega)]
  | none =>
    rcases hroom with hfree | hsome
    · cases hfm : s.free_maps with
      | nil => exact absurd hfm hfree
      | cons b rest =>
        have hb8 : b < 8 := hWF.2.2.2 b (by rw [hfm]; exact List.mem_cons_self _ _)
        have hbl := bank_length s hWF b hb8
        have hidx : u16sub1 port < (s.port_maps.getD b []).length := by omega
        refine ⟨_, insert_new_eq s ip port v b rest hb hfm hidx, ?_, ⟨b, ?_, hb8⟩, ?_⟩
        · exact wf_after_new_ip s hWF ip b rest hfm _ (by rw [List.length_set, hbl])
        · rw [treeGet_cons, if_pos rfl]
        · unfold Sock2Index.get
          dsimp only
          rw [if_pos (by omega : (0 : Nat) < port)]
          rw [treeGet_cons, if_pos rfl]
          dsimp only
          rw [getD_set_self _ _ _ (by rw [hWF.1]; exact hb8)]
          rw [get?_set_self _ _ _ (by omega)]
    · rw [hb] at hsome
      exact absurd hsome (by simp)

theorem remove_get_spec (s2 : Sock2Index) (ip port b : Nat) (hWF : s2.WF)
    (h1 : 1 ≤ port) (h2 : port ≤ 65535)
    (hb : treeGet s2.sock_tree ip = some b) :
    ∃ s3 old, s2.remove (ip, port) = some (s3, old) ∧ s3.get (ip, port) = some none := by
  have hb8 : b < 8 := hWF.2.2.1 _ (treeGet_mem _ _ _ hb)
  have hbl := bank_length s2 hWF b hb8
  have hur := u16sub1_in_range port h1 h2
  have hidx : u16sub1 port < (s2.port_maps.getD b []).length := by omega
  have hold : (s2.port_maps.getD b []).get? (u16sub1 port) =
      some ((s2.port_maps.getD b []).get ⟨u16sub1 port, hidx⟩) := by
    rw [List.get?_eq_getElem?, List.getElem?_eq_getElem hidx]
    rfl
  refine ⟨{ s2 with
      port_maps := s2.port_maps.set b ((s2.port_maps.getD b []).set (u16sub1 port) 0) },
    (if (s2.port_maps.getD b []).get ⟨u16sub1 port, hidx⟩ = 0 then none
      else some ((s2.port_maps.getD b []).get ⟨u16sub1 port, hidx⟩)), ?_, ?_⟩
  · unfold Sock2Index.remove
    dsimp only
    rw [hb]
    dsimp only
    rw [hold]
  · unfold Sock2Index.get
    dsimp only
    rw [if_pos (by omega : (0 : Nat) < port)]
    rw [hb]
    dsimp only
    rw [getD_set_self _ _ _ (by rw [hWF.1]; exact hb8)]
    rw [get?_set_self _ _ _ (by omega)]
    rfl

/-- Claim C4 (amended): for any well-formed index, port in 1..=65535 and
slot number v ≥ 1 (0 is the in-bank encoding of "empty", so a slot of 0
is not retrievable), with a free bank available or the IP already
mapped: `get` right after `insert` returns the inserted slot, and after
a subsequent `remove`, `get` reports no match. -/
theorem c4_insert_get_remove (s : Sock2Index) (ip port v : Nat) (hWF : s.WF)
    (h1 : 1 ≤ port) (h2 : port ≤ 65535) (hv : 1 ≤ v)
    (hroom : s.free_maps ≠ [] ∨ (treeGet s.sock_tree ip).isSome) :
    ∃ s2, s.insert (ip, port) v = some s2 ∧
      s2.get (ip, port) = some (some v) ∧
      ∃ s3 old, s2.remove (ip, port) = some (s3, old) ∧ s3.get (ip, port) = some none := by
  obtain ⟨s2, hi, hwf2, ⟨b, hb, hb8⟩, hg⟩ := insert_get_spec s ip port v hWF h1 h2 hroom
  obtain ⟨s3, old, hr, hg3⟩ := remove_get_spec s2 ip port b hwf2 h1 h2 hb
  refine ⟨s2, hi, ?_, s3, old, hr, hg3⟩
  rw [hg, if_neg (by omega)]

/-- Claim C4 counterexample: inserting slot number 0 is not retrievable
— `get` right after `insert (1, 1) 0` returns "no match" (`some none`),
not the inserted slot 0, because a stored 0 is the bank's "empty"
marker.  So the claim fails for slot 0. -/
theorem c4_zero_slot_counterexample :
    (Sock2Index.new.insert (1, 1) 0).map (fun s2 => s2.get (1, 1)) = some (some none) ∧
    (some (some (none : Option Nat)) : Option (Option (Option Nat))) ≠
      some (some (some 0)) := by
  constructor
  · obtain ⟨s2, hi, hwf2, hb, hg⟩ := insert_get_spec Sock2Index.new 1 1 0 wf_new
      (by decide) (by decide) (Or.inl (by decide))
    rw [hi, Option.map_some', hg]
    rfl
  · simp

/-- Claim C4 witness: instantiation at IP 5, port 80, slot 7 on a fresh
index. -/
theorem c4_insert_get_remove_witness :
    ∃ s2, Sock2Index.new.insert (5, 80) 7 = some s2 ∧
      s2.get (5, 80) = some (some 7) ∧
      ∃ s3 old, s2.remove (5, 80) = some (s3, old) ∧ s3.get (5, 80) = some none :=
  c4_insert_get_remove Sock2Index.new 5 80 7 wf_new (by decide) (by decide) (by decide)
    (Or.inl (by decide))

theorem insert_known_free (t : Sock2Index) (sock : Nat × Nat) (v : Nat) (t2 : Sock2Index)
    (hsome : (treeGet t.sock_tree sock.1).isSome)
    (hins : t.insert sock v = some t2) :
    t2.free_maps = t.free_maps := by
  cases hb : treeGet t.sock_tree sock.1 with
  | none => rw [hb] at hsome; exact absurd hsome (by simp)
  | some b =>
    unfold Sock2Index.insert at hins
    rw [hb] at hins
    simp only [Option.isNone_some, Bool.false_eq_true, if_false] at hins
    unfold Sock2Index.insertBank at hins
    rw [hb] at hins
    dsimp only at hins
    split at hins
    · injection hins with h
      rw [← h]
    · exact absurd hins (by simp)

theorem insert_many_fresh_spec (l : List ((Nat × Nat) × Nat)) : ∀ (s : Sock2Index), s.WF →
    (l.map (fun e => e.1.1)).Nodup →
    (∀ e ∈ l, treeGet s.sock_tree e.1.1 = none) →
    (∀ e ∈ l, 1 ≤ e.1.2 ∧ e.1.2 ≤ 65535) →
    l.length ≤ s.free_maps.length →
    ∃ s2, s.insert_many l = some s2 ∧ s2.WF ∧
      s2.free_maps.length = s.free_maps.length - l.length ∧
      (∀ ip, (treeGet s2.sock_tree ip).isSome ↔
        ip ∈ l.map (fun e => e.1.1) ∨ (treeGet s.sock_tree ip).isSome) := by
  induction l with
  | nil =>
    intro s hWF _ _ _ _
    exact ⟨s, rfl, hWF, by simp, fun ip => by simp⟩
  | cons e rest ih =>
    intro s hWF hnd hfresh hports hlen
    obtain ⟨⟨ip1, p1⟩, v1⟩ := e
    simp only [List.map_cons, List.nodup_cons] at hnd
    cases hfm : s.free_maps with
    | nil =>
      rw [hfm] at hlen
      simp at hlen
    | cons b rbs =>
      have hb8 : b < 8 := hWF.2.2.2 b (by rw [hfm]; exact List.mem_cons_self _ _)
      have hbl := bank_length s hWF b hb8
      have hp := hports _ (List.mem_cons_self _ _)
      dsimp only at hp
      have hur := u16sub1_in_range p1 hp.1 hp.2
      have hidx : u16sub1 p1 < (s.port_maps.getD b []).length := by omega
      have hip1 : treeGet s.sock_tree ip1 = none := hfresh _ (List.mem_cons_self _ _)
      have hinsEq := insert_new_eq s ip1 p1 v1 b rbs hip1 hfm hidx
      have hWF1 := wf_after_new_ip s hWF ip1 b rbs hfm
        ((s.port_maps.getD b []).set (u16sub1 p1) v1) (by rw [List.length_set, hbl])
      have hfresh1 : ∀ e2 ∈ rest,
          treeGet ((ip1, b) :: s.sock_tree) e2.1.1 = none := by
        intro e2 he2
        rw [treeGet_cons, if_neg ?_]
        · exact hfresh _ (List.mem_cons_of_mem _ he2)
        · intro hcontra
          exact hnd.1 (by rw [hcontra]; exact List.mem_map_of_mem _ he2)
      have hlen1 : rest.length ≤ rbs.length := by
        rw [hfm] at hlen
        simpa using hlen
      obtain ⟨s2, hrec, hwf2, hflen, htree⟩ := ih _ hWF1 hnd.2 hfresh1
        (fun e2 he2 => hports _ (List.mem_cons_of_mem _ he2)) hlen1
      refine ⟨s2, ?_, hwf2, ?_, ?_⟩
      · show Sock2Index.insert_many s (((ip1, p1), v1) :: rest) = some s2
        simp only [Sock2Index.insert_many]
        rw [hinsEq]
        exact hrec
      · rw [hflen]
        dsimp only
        simp only [List.length_cons]
        omega
      · intro ip
        rw [htree ip]
        by_cases hip : ip1 = ip
        · subst hip
          simp [treeGet_cons]
        · rw [treeGet_cons, if_neg hip]
          simp only [List.map_cons, List.mem_cons]
          constructor
          · rintro (h | h)
            · exact Or.inl (Or.inr h)
            · exact Or.inr h
          · rintro ((h | h) | h)
            · exact absurd h.symm hip
            · exact Or.inl h
            · exact Or.inr h

/-- Claim C6: on a fresh `Sock2Index`, inserting entries for 8 pairwise
distinct IPs (any ports in 1..=65535) succeeds; the insert introducing a
9th distinct IP hits the bank-exhaustion fatal branch (the free-list of
8 bank ids is empty, embedded as `none`); and an insert for an
already-known IP never consumes a bank id (the free-list is unchanged). -/
theorem c6_bank_exhaustion (l : List ((Nat × Nat) × Nat)) (ip9 : Nat × Nat) (v9 : Nat)
    (hlen : l.length = 8)
    (hnd : (l.map (fun e => e.1.1)).Nodup)
    (hports : ∀ e ∈ l, 1 ≤ e.1.2 ∧ e.1.2 ≤ 65535)
    (hip9 : ip9.1 ∉ l.map (fun e => e.1.1)) :
    ∃ s2, Sock2Index.new.insert_many l = some s2 ∧
      s2.insert ip9 v9 = none ∧
      ∀ (t : Sock2Index) (sock : Nat × Nat) (v : Nat) (t2 : Sock2Index),
        (treeGet t.sock_tree sock.1).isSome → t.insert sock v = some t2 →
        t2.free_maps = t.free_maps := by
  have hfree8 : Sock2Index.new.free_maps.length = 8 := by
    show (List.range 8).length = 8
    rw [List.length_range]
  obtain ⟨s2, hmany, hwf2, hflen, htree⟩ :=
    insert_many_fresh_spec l Sock2Index.new wf_new hnd (fun e _ => rfl) hports (by omega)
  have hfempty : s2.free_maps = [] :=
    List.eq_nil_of_length_eq_zero (by omega)
  have hip9t : treeGet s2.sock_tree ip9.1 = none := by
    by_contra hne
    have hs : (treeGet s2.sock_tree ip9.1).isSome := Option.ne_none_iff_isSome.mp hne
    rcases (htree ip9.1).mp hs with h | h
    · exact hip9 h
    · exact absurd h (by simp [treeGet])
  refine ⟨s2, hmany, ?_, insert_known_free⟩
  unfold Sock2Index.insert
  rw [hip9t]
  simp only [Option.isNone_none, if_true]
  rw [hfempty]

/-- Claim C6 witness: 8 distinct IPs 1..8 on port 80, then IP 9. -/
theorem c6_bank_exhaustion_witness :
    ∃ s2, Sock2Index.new.insert_many
        [((1, 80), 1), ((2, 80), 2), ((3, 80), 3), ((4, 80), 4),
         ((5, 80), 5), ((6, 80), 6), ((7, 80), 7), ((8, 80), 8)] = some s2 ∧
      s2.insert (9, 80) 9 = none ∧
      ∀ (t : Sock2Index) (sock : Nat × Nat) (v : Nat) (t2 : Sock2Index),
        (treeGet t.sock_tree sock.1).isSome → t.insert sock v = some t2 →
        t2.free_maps = t.free_maps :=
  c6_bank_exhaustion
    [((1, 80), 1), ((2, 80), 2), ((3, 80), 3), ((4, 80), 4),
     ((5, 80), 5), ((6, 80), 6), ((7, 80), 7), ((8, 80), 8)]
    (9, 80) 9 (by decide) (by decide) (by decide) (by decide)

theorem insert_port_zero_none (s : Sock2Index) (ip v : Nat) (hWF : s.WF) :
    s.insert (ip, 0) v = none := by
  cases hb : treeGet s.sock_tree ip with
  | some b =>
    have hb8 : b < 8 := hWF.2.2.1 _ (treeGet_mem _ _ _ hb)
    have hbl := bank_length s hWF b hb8
    unfold Sock2Index.insert
    dsimp only
    rw [hb]
    simp only [Option.isNone_some, Bool.false_eq_true, if_false]
    unfold Sock2Index.insertBank
    rw [hb]
    dsimp only
    rw [if_neg (by rw [u16sub1_zero, hbl]; omega)]
  | none =>
    unfold Sock2Index.insert
    dsimp only
    rw [hb]
    simp only [Option.isNone_none, if_true]
    cases hfm : s.free_maps with
    | nil => rfl
    | cons b rest =>
      have hb8 : b < 8 := hWF.2.2.2 b (by rw [hfm]; exact List.mem_cons_self _ _)
      have hbl := bank_length s hWF b hb8
      dsimp only
      unfold Sock2Index.insertBank
      dsimp only
      rw [treeGet_cons, if_pos rfl]
      dsimp only
      rw [if_neg (by rw [u16sub1_zero, hbl]; omega)]

theorem remove_port_zero_none (s : Sock2Index) (ip b : Nat) (hWF : s.WF)
    (hb : treeGet s.sock_tree ip = some b) :
    s.remove (ip, 0) = none := by
  have hb8 : b < 8 := hWF.2.2.1 _ (treeGet_mem _ _ _ hb)
  have hbl := bank_length s hWF b hb8
  unfold Sock2Index.remove
  dsimp only
  rw [hb]
  dsimp only
  rw [show (s.port_maps.getD b []).get? (u16sub1 0) = none by
    rw [List.get?_eq_getElem?, List.getElem?_eq_none]
    rw [u16sub1_zero, hbl]]

/-- Claim C10 counterexample: `remove` with port 0 does NOT always
perform an out-of-bounds bank access.  On a fresh index, the IP is
unknown, so `remove((1, 0))` returns early with "no match" — a normal,
non-panicking result (`some (s, none)`, not the out-of-bounds `none`) —
without ever computing `port - 1` or touching a bank. -/
theorem c10_remove_unknown_ip_counterexample :
    Sock2Index.new.remove (1, 0) = some (Sock2Index.new, none) ∧
    some (Sock2Index.new, (none : Option Nat)) ≠
      (none : Option (Sock2Index × Option Nat)) := by
  constructor
  · rfl
  · simp

/-- Claim C10 (amended): port 0 violates the operations' preconditions,
with one carve-out for `remove` on an unknown IP: `get` hits the
`assert!(port > 0)` panic; `insert` panics (the wrapped index
`(0 - 1) as u16 = 65535` is out of bounds for the 65535-entry bank, or
the free-list is exhausted first); `remove` performs the out-of-bounds
bank read only when the IP is known — on an unknown IP it returns "no
match" before computing the index, touching no bank.  For every port in
1..=65535 the computed index `port - 1` is in bounds and `get`
completes without a panic. -/
theorem c10_port_bounds (s : Sock2Index) (ip v port : Nat) (hWF : s.WF) :
    s.get (ip, 0) = none ∧
    s.insert (ip, 0) v = none ∧
    ((treeGet s.sock_tree ip).isSome → s.remove (ip, 0) = none) ∧
    (treeGet s.sock_tree ip = none → s.remove (ip, 0) = some (s, none)) ∧
    (1 ≤ port → port ≤ 65535 →
      u16sub1 port = port - 1 ∧ port - 1 < 65535 ∧ s.get (ip, port) ≠ none) := by
  refine ⟨?_, insert_port_zero_none s ip v hWF, ?_, ?_, ?_⟩
  · unfold Sock2Index.get
    dsimp only
    rw [if_neg (by omega)]
  · intro hsome
    cases hb : treeGet s.sock_tree ip with
    | none => rw [hb] at hsome; exact absurd hsome (by simp)
    | some b => exact remove_port_zero_none s ip b hWF hb
  · intro hnone
    unfold Sock2Index.remove
    dsimp only
    rw [hnone]
  · intro h1 h2
    have hur := u16sub1_in_range port h1 h2
    refine ⟨hur.1, hur.2, ?_⟩
    unfold Sock2Index.get
    dsimp only
    rw [if_pos (by omega : (0 : Nat) < port)]
    cases hb : treeGet s.sock_tree ip with
    | none => simp
    | some b =>
      have hb8 : b < 8 := hWF.2.2.1 _ (treeGet_mem _ _ _ hb)
      have hbl := bank_length s hWF b hb8
      have hidx : u16sub1 port < (s.port_maps.getD b []).length := by omega
      dsimp only
      rw [List.get?_eq_getElem?, List.getElem?_eq_getElem hidx]
      dsimp only
      split <;> simp

theorem wf_single_ip3 :
    (Sock2Index.mk [(3, 0)] (List.replicate 8 (List.replicate 65535 0)) []).WF := by
  refine ⟨?_, ?_, ?_, ?_⟩
  · show (List.replicate 8 (List.replicate 65535 0)).length = 8
    rw [List.length_replicate]
  · intro b hb
    have hbe : b = List.replicate 65535 0 := List.eq_of_mem_replicate hb
    rw [hbe, List.length_replicate]
  · intro p hp
    have hpe : p = (3, 0) := by simpa using hp
    rw [hpe]
    decide
  · intro b hb
    exact absurd hb (List.not_mem_nil b)

/-- Claim C10 witness: instantiation at an index that already knows
IP 3 (bank 0), so the known-IP `remove` panic branch is exercised, with
slot 5 and port 80. -/
theorem c10_port_bounds_witness :
    (Sock2Index.mk [(3, 0)] (List.replicate 8 (List.replicate 65535 0)) []).get (3, 0)
      = none ∧
    (Sock2Index.mk [(3, 0)] (List.replicate 8 (List.replicate 65535 0)) []).insert (3, 0) 5
      = none ∧
    (Sock2Index.mk [(3, 0)] (List.replicate 8 (List.replicate 65535 0)) []).remove (3, 0)
      = none ∧
    (u16sub1 80 = 80 - 1 ∧ 80 - 1 < 65535 ∧
      (Sock2Index.mk [(3, 0)] (List.replicate 8 (List.replicate 65535 0)) []).get (3, 80)
        ≠ none) := by
  have h := c10_port_bounds
    (Sock2Index.mk [(3, 0)] (List.replicate 8 (List.replicate 65535 0)) []) 3 5 80
    wf_single_ip3
  exact ⟨h.1, h.2.1, h.2.2.1 (by decide), h.2.2.2.2 (by decide) (by decide)⟩
